import Mathlib

/-!
Verification of the rlog logging package (the `filterSpec` revision of
`rlog.go`).  Go strings are modelled as `List Char`; Go `int` is modelled as
`Int` (no arithmetic in this code can overflow a 64-bit integer, and
`strconv.Atoi` is modelled with its 64-bit range check).  Each definition
mirrors one Go function of the source file.
-/

namespace Rlog

/-- Sentinel trace level used by the non-trace log functions (`const notATrace = -1`). -/
def notATrace : Int := -1

/-- Log level constant `levelNone = iota` (0). -/
def levelNone : Int := 0

/-- Log level constant `levelCrit` (1). -/
def levelCrit : Int := 1

/-- Log level constant `levelErr` (2). -/
def levelErr : Int := 2

/-- Log level constant `levelWarn` (3). -/
def levelWarn : Int := 3

/-- Log level constant `levelInfo` (4). -/
def levelInfo : Int := 4

/-- Log level constant `levelDebug` (5). -/
def levelDebug : Int := 5

/-- Log level constant `levelTrace` (6). -/
def levelTrace : Int := 6

/-- The `levelStrings` map: level number to name, with the Go zero value `""`
for a missing key. -/
def levelStrings (l : Int) : List Char :=
  if l = levelTrace then ("TRACE").data
  else if l = levelDebug then ("DEBUG").data
  else if l = levelInfo then ("INFO").data
  else if l = levelWarn then ("WARN").data
  else if l = levelErr then ("ERROR").data
  else if l = levelCrit then ("CRITICAL").data
  else if l = levelNone then ("NONE").data
  else []

/-- The `levelNumbers` map: level name to number (`none` models a missing key). -/
def levelNumbers (s : List Char) : Option Int :=
  if s = ("TRACE").data then some levelTrace
  else if s = ("DEBUG").data then some levelDebug
  else if s = ("INFO").data then some levelInfo
  else if s = ("WARN").data then some levelWarn
  else if s = ("ERROR").data then some levelErr
  else if s = ("CRITICAL").data then some levelCrit
  else if s = ("NONE").data then some levelNone
  else none

/-- Go `strings.Split(s, sep)` for a one-character separator: splits around
every occurrence of `sep`; the empty string yields `[""]`. -/
def goSplit (sep : Char) : List Char → List (List Char)
  | [] => [[]]
  | c :: rest =>
    if c = sep then [] :: goSplit sep rest
    else
      match goSplit sep rest with
      | [] => [[c]]
      | t :: ts => (c :: t) :: ts

/-- Go `strings.ToUpper` restricted to ASCII (the only characters the level
names and the configuration strings of interest use). -/
def goToUpper (s : List Char) : List Char := s.map Char.toUpper

/-- Parse a block of decimal digits; `none` if empty or a non-digit occurs. -/
def digitsToNat : List Char → Option Nat
  | [] => none
  | [c] => if c.isDigit then some (c.toNat - ('0').toNat) else none
  | c :: rest =>
    if c.isDigit then
      match digitsToNat rest with
      | none => none
      | some n => some ((c.toNat - ('0').toNat) * 10 ^ rest.length + n)
    else none

/-- Go `strconv.Atoi`: optional sign, one or more decimal digits, with the
64-bit `int` range check; every other input is an error (`none`). -/
def goAtoi (s : List Char) : Option Int :=
  let core : Bool × List Char :=
    match s with
    | '-' :: rest => (true, rest)
    | '+' :: rest => (false, rest)
    | _ => (false, s)
  match digitsToNat core.2 with
  | none => none
  | some n =>
    let v : Int := if core.1 then -(n : Int) else (n : Int)
    if -(2 ^ 63) ≤ v ∧ v ≤ 2 ^ 63 - 1 then some v else none

/-- The `filter` struct: a caller-file glob pattern and an admission level. -/
structure filter where
  Pattern : List Char
  Level : Int
deriving DecidableEq

/-- The `filterSpec` struct: an ordered list of filters. -/
structure filterSpec where
  filters : List filter
deriving DecidableEq

/-- The per-field part of `filterSpec.fromString`: split the field on `=`,
classify it as global (one token) or pattern (two tokens), and parse the level
token (numerically in trace mode, by name otherwise, with `TRACE` rejected).
`none` means the field is skipped by a `continue` in the source. -/
def parseField (isTraceLevels : Bool) (f : List Char) : Option (List Char × Int) :=
  let tokens := goSplit '=' f
  let toks : Option (List Char × List Char) :=
    match tokens with
    | [lt] => some ([], lt)
    | [mt, lt] => some (mt, lt)
    | _ => none
  match toks with
  | none => none
  | some (matchToken, levelToken) =>
    if isTraceLevels then
      match goAtoi levelToken with
      | none => none
      | some lvl => some (matchToken, lvl)
    else
      match levelNumbers (goToUpper levelToken) with
      | none => none
      | some lvl => if lvl = levelTrace then none else some (matchToken, lvl)

/-- One iteration of the field loop of `filterSpec.fromString`, acting on the
state (current global level, filters accumulated so far). -/
def processField (isTraceLevels : Bool) (st : Int × List filter) (f : List Char) :
    Int × List filter :=
  match parseField isTraceLevels f with
  | none => st
  | some (matchToken, lvl) =>
    if matchToken = [] then (lvl, st.2)
    else (st.1, st.2 ++ [⟨matchToken, lvl⟩])

/-- `filterSpec.fromString`: split the configuration string on commas, process
each field, and finally append the global filter (empty pattern) so that it is
evaluated last. -/
def filterSpec.fromString (spec : filterSpec) (s : List Char) (isTraceLevels : Bool)
    (globalLevelDefault : Int) : filterSpec :=
  let st := (goSplit ',' s).foldl (processField isTraceLevels)
    (globalLevelDefault, spec.filters)
  ⟨st.2 ++ [⟨[], st.1⟩]⟩

/-- Leading-star stripping step of `scanChunk`. -/
def dropStars : List Char → List Char
  | '*' :: r => dropStars r
  | p => p

/-- The chunk-scanning loop of `scanChunk`: return the chunk up to (but not
including) the next `*` that is outside a `[...]` range, and the rest of the
pattern; a `\\` skips the following character. -/
def chunkEnd (inrange : Bool) : List Char → List Char × List Char
  | [] => ([], [])
  | c :: rest =>
    if c = '\\' then
      match rest with
      | [] => ([c], [])
      | d :: rest2 =>
        let p := chunkEnd inrange rest2
        (c :: d :: p.1, p.2)
    else if c = '[' then
      let p := chunkEnd true rest
      (c :: p.1, p.2)
    else if c = ']' then
      let p := chunkEnd false rest
      (c :: p.1, p.2)
    else if c = '*' then
      if inrange then
        let p := chunkEnd inrange rest
        (c :: p.1, p.2)
      else ([], c :: rest)
    else
      let p := chunkEnd inrange rest
      (c :: p.1, p.2)

/-- `scanChunk` of Go `path/filepath`: strip leading stars, then cut the
pattern at the next top-level star. -/
def scanChunk (pattern : List Char) : Bool × List Char × List Char :=
  let star : Bool := pattern.head? = some '*'
  let p := chunkEnd false (dropStars pattern)
  (star, p.1, p.2)

/-- `getEsc` of Go `path/filepath`: read one possibly-escaped character of a
range; `none` is the `ErrBadPattern` outcome. -/
def getEsc : List Char → Option (Char × List Char)
  | [] => none
  | c :: rest =>
    if c = '-' ∨ c = ']' then none
    else if c = '\\' then
      match rest with
      | [] => none
      | d :: rest2 => if rest2 = [] then none else some (d, rest2)
    else if rest = [] then none else some (c, rest)

/-- The range-parsing loop inside the `[` case of `matchChunk`; the fuel is at
least the chunk length plus one, and each iteration consumes a character.
Returns the accumulated match flag and the rest of the chunk, or `none` for a
bad pattern. -/
def parseRanges : Nat → Char → Bool → Nat → List Char → Option (Bool × List Char)
  | 0, _, _, _, _ => none
  | Nat.succ fl, r, mtch, nrange, chunk =>
    if chunk.head? = some ']' ∧ 0 < nrange then some (mtch, chunk.tail)
    else
      match getEsc chunk with
      | none => none
      | some (lo, chunk1) =>
        match (if chunk1.head? = some '-' then getEsc chunk1.tail else some (lo, chunk1)) with
        | none => none
        | some (hi, chunk2) =>
          parseRanges fl r (mtch || (lo ≤ r ∧ hi ≥ r)) (nrange + 1) chunk2

/-- `matchChunk` of Go `path/filepath`: match a chunk against the head of a
name. Result is Go's `(rest, ok, err)` triple, with `err` as a `Bool`. The
fuel is at least the chunk length plus one. -/
def matchChunk : Nat → List Char → List Char → List Char × Bool × Bool
  | 0, _, _ => ([], false, true)
  | Nat.succ fl, chunk, s =>
    match chunk with
    | [] => (s, true, false)
    | c :: chunkRest =>
      match s with
      | [] => ([], false, false)
      | sc :: sRest =>
        if c = '[' then
          match chunkRest with
          | [] => ([], false, true)
          | _ :: _ =>
            let nc : Bool × List Char :=
              if chunkRest.head? = some '^' then (true, chunkRest.tail)
              else (false, chunkRest)
            match parseRanges (nc.2.length + 1) sc false 0 nc.2 with
            | none => ([], false, true)
            | some (mtch, chunk3) =>
              if mtch = nc.1 then ([], false, false)
              else matchChunk fl chunk3 sRest
        else if c = '?' then
          if sc = '/' then ([], false, false)
          else matchChunk fl chunkRest sRest
        else if c = '\\' then
          match chunkRest with
          | [] => ([], false, true)
          | d :: chunkRest2 =>
            if d ≠ sc then ([], false, false)
            else matchChunk fl chunkRest2 sRest
        else
          if c ≠ sc then ([], false, false)
          else matchChunk fl chunkRest sRest

/-- `matchChunk` with its sufficient fuel. -/
def matchChunkTop (chunk s : List Char) : List Char × Bool × Bool :=
  matchChunk (chunk.length + 1) chunk s

/-- The star-retry loop of Go `filepath.Match`: try to match the chunk at every
later position of the name (stopping at a path separator). `some t` means the
outer loop continues with the rest-pattern and name `t`; `none` means `Match`
returns false (including the bad-pattern case, which also yields false). -/
def starLoop : Nat → List Char → List Char → List Char → Option (List Char)
  | 0, _, _, _ => none
  | Nat.succ fl, chunk, rest, name =>
    match name with
    | [] => none
    | c :: nameRest =>
      if c = '/' then none
      else
        let p := matchChunkTop chunk nameRest
        if p.2.1 then
          if rest = [] ∧ p.1 ≠ [] then starLoop fl chunk rest nameRest
          else some p.1
        else if p.2.2 then none
        else starLoop fl chunk rest nameRest

/-- The main loop of Go `filepath.Match`; the fuel is at least the pattern
length plus one (each iteration consumes at least one pattern character). -/
def goMatchGo : Nat → List Char → List Char → Bool
  | 0, _, _ => false
  | Nat.succ fl, pattern, name =>
    match pattern with
    | [] => name.isEmpty
    | _ :: _ =>
      let sc := scanChunk pattern
      let star := sc.1
      let chunk := sc.2.1
      let rest := sc.2.2
      if star ∧ chunk = [] then !(name.contains '/')
      else
        let p := matchChunkTop chunk name
        if p.2.1 ∧ (p.1 = [] ∨ rest ≠ []) then goMatchGo fl rest p.1
        else if p.2.2 then false
        else if star then
          match starLoop (name.length + 1) chunk rest name with
          | some t2 => goMatchGo fl rest t2
          | none => false
        else false

/-- Go `filepath.Match(pattern, name)`, returning only the matched flag (the
call site of the source discards the error, and every error return of `Match`
carries `matched = false`). -/
def goMatch (pattern name : List Char) : Bool :=
  goMatchGo (pattern.length + 1) pattern name

/-- Go `filepath.Base`: strip trailing separators, then keep everything after
the last separator; `""` gives `"."` and an all-separator path gives `"/"`. -/
def goBase (p : List Char) : List Char :=
  if p = [] then [('.')]
  else
    let p1 := (p.reverse.dropWhile (fun c => c = '/')).reverse
    let p2 := (p1.reverse.takeWhile (fun c => c ≠ '/')).reverse
    if p2 = [] then [('/')] else p2

/-- `filter.match` of the source (`match` is a Lean keyword, hence `matchf`):
returns (pattern matched, message should be logged). An empty pattern matches
every filename; otherwise the pattern is glob-matched against the base of the
filename. -/
def filter.matchf (f : filter) (filename : List Char) (level : Int) : Bool × Bool :=
  let m : Bool := if f.Pattern ≠ [] then goMatch f.Pattern (goBase filename) else true
  if m then (true, level ≤ f.Level) else (false, false)

/-- The filter loop of `filterSpec.matchfilters`: return the decision of the
first filter that reports a pattern match. -/
def matchLoop (filename : List Char) (level : Int) : List filter → Bool
  | [] => false
  | f :: rest =>
    let p := f.matchf filename level
    if p.1 then p.2 else matchLoop filename level rest

/-- `filterSpec.matchfilters`: false for an empty filter list, else the
decision of the first filter whose pattern matches; false if none matches. -/
def filterSpec.matchfilters (spec : filterSpec) (filename : List Char) (level : Int) : Bool :=
  if spec.filters.length = 0 then false
  else matchLoop filename level spec.filters

/-- Go `fmt.Sprintln` for string operands: operands separated by single
spaces, with a trailing newline. -/
def goSprintln (a : List (List Char)) : List Char :=
  (List.intercalate ([' ']) a) ++ [('\n')]

/-- Go `fmt.Sprintf` modelled for string operands and the verbs `%s` and `%%`
(the only formatting behaviour any property here depends on; the layout claims
are about the text around the message body, not about verb processing). -/
def goSprintf : List Char → List (List Char) → List Char
  | [], _ => []
  | '%' :: 's' :: rest, a :: args => a ++ goSprintf rest args
  | '%' :: 's' :: rest, [] => ("%!s(MISSING)").data ++ goSprintf rest []
  | '%' :: '%' :: rest, args => '%' :: goSprintf rest args
  | c :: rest, args => c :: goSprintf rest args

/-- Go `%d` / `strconv.Itoa` rendering of an integer. -/
def goItoa (i : Int) : List Char := (toString i).data

/-- Go `path.Split`: split a path just after its last slash. -/
def pathSplit (p : List Char) : List Char × List Char :=
  let file := (p.reverse.takeWhile (fun c => c ≠ '/')).reverse
  (p.take (p.length - file.length), file)

/-- The caller-attribution computation of `basicLog` (lines 292-298 of the
source): `moduleAndFileName` is the immediate parent directory and the file
name of the caller's full path, joined with a slash. -/
def moduleAndFileNameOf (fullFilePath : List Char) : List Char :=
  let sp := pathSplit fullFilePath
  let dirPath := sp.1
  let fileName := sp.2
  let moduleName := if dirPath ≠ [] then (pathSplit dirPath.dropLast).2 else []
  moduleName ++ '/' :: fileName

/-- Go `fmt` padding `%-*s`: left-justify, padding on the right with spaces up
to the minimum width `w`. -/
def padRight (w : Nat) (s : List Char) : List Char :=
  s ++ List.replicate (w - s.length) ' '

/-- The result of `runtime.Caller(2)` when it succeeds: the caller's full file
path, line number and function name. `Option CallerInfo` models the `ok`
flag. -/
structure CallerInfo where
  fullFilePath : List Char
  line : Int
  funcName : List Char

/-- The module-level mutable settings of rlog that the emission pipeline
reads: the two compiled filter specs and the caller-info flag. -/
structure RlogState where
  logfilterSpec : filterSpec
  tracefilterSpec : filterSpec
  settingShowCallerInfo : Bool

/-- The caller-info segment of the log line: `"[%s:%d (%s)] "` when the flag
is set, empty otherwise (the Go zero values stand in when the caller lookup
failed). -/
def callerInfoSegment (st : RlogState) (caller : Option CallerInfo) : List Char :=
  if st.settingShowCallerInfo then
    let mf := match caller with
      | some c => moduleAndFileNameOf c.fullFilePath
      | none => []
    let ln : Int := match caller with
      | some c => c.line
      | none => 0
    let fn := match caller with
      | some c => c.funcName
      | none => []
    '[' :: mf ++ ':' :: goItoa ln ++ ' ' :: '(' :: fn ++ ')' :: ']' :: ' ' :: []
  else []

/-- `basicLog` of the source, as the line it hands to `logWriter.Printf`
(`none` when the message is filtered out; an optional timestamp produced by
the `log.Logger` flags would precede this line). The caller information
obtained from `runtime.Caller(2)` is passed in as `caller`. -/
def basicLog (st : RlogState) (logLevel : Int) (traceLevel : Int) (format : List Char)
    (prefixAddition : List Char) (a : List (List Char)) (caller : Option CallerInfo) :
    Option (List Char) :=
  let moduleAndFileName := match caller with
    | some c => moduleAndFileNameOf c.fullFilePath
    | none => []
  let allowLog :=
    if traceLevel = notATrace then st.logfilterSpec.matchfilters moduleAndFileName logLevel
    else st.tracefilterSpec.matchfilters moduleAndFileName traceLevel
  if !allowLog then none
  else
    let callerInfo := callerInfoSegment st caller
    let msg := if format ≠ [] then goSprintf format a else goSprintln a
    let levelDecoration := levelStrings logLevel ++ prefixAddition
    some (padRight 9 levelDecoration ++ ':' :: ' ' :: (callerInfo ++ msg))

/-- A logging call's observable effect: whether the `runtime.Caller`
introspection was executed on the path taken, and the emitted line if any. -/
structure LogResult where
  callerIntrospected : Bool
  output : Option (List Char)
deriving DecidableEq

/-- `basicLog` with its introspection effect: `runtime.Caller(2)` is invoked
unconditionally as the first statement of `basicLog` (line 285 of the source),
before any filter is consulted, so every call that reaches `basicLog`
introspects the caller stack. -/
def basicLogR (st : RlogState) (logLevel : Int) (traceLevel : Int) (format : List Char)
    (prefixAddition : List Char) (a : List (List Char)) (caller : Option CallerInfo) :
    LogResult :=
  ⟨true, basicLog st logLevel traceLevel format prefixAddition a caller⟩

/-- `Trace`: prefix `(<depth>)`, level `levelTrace`, no pre-check of any kind
before `basicLog` is entered. -/
def Trace (st : RlogState) (traceLevel : Int) (a : List (List Char))
    (caller : Option CallerInfo) : LogResult :=
  let prefixAddition := '(' :: goItoa traceLevel ++ [(')')]
  basicLogR st levelTrace traceLevel [] prefixAddition a caller

/-- `Tracef`: formatted variant of `Trace`. -/
def Tracef (st : RlogState) (traceLevel : Int) (format : List Char) (a : List (List Char))
    (caller : Option CallerInfo) : LogResult :=
  let prefixAddition := '(' :: goItoa traceLevel ++ [(')')]
  basicLogR st levelTrace traceLevel format prefixAddition a caller

/-- `Debug`. -/
def Debug (st : RlogState) (a : List (List Char)) (caller : Option CallerInfo) : LogResult :=
  basicLogR st levelDebug notATrace [] [] a caller

/-- `Debugf`. -/
def Debugf (st : RlogState) (format : List Char) (a : List (List Char))
    (caller : Option CallerInfo) : LogResult :=
  basicLogR st levelDebug notATrace format [] a caller

/-- `Info`. -/
def Info (st : RlogState) (a : List (List Char)) (caller : Option CallerInfo) : LogResult :=
  basicLogR st levelInfo notATrace [] [] a caller

/-- `Infof`. -/
def Infof (st : RlogState) (format : List Char) (a : List (List Char))
    (caller : Option CallerInfo) : LogResult :=
  basicLogR st levelInfo notATrace format [] a caller

/-- `Warn`. -/
def Warn (st : RlogState) (a : List (List Char)) (caller : Option CallerInfo) : LogResult :=
  basicLogR st levelWarn notATrace [] [] a caller

/-- `Warnf`. -/
def Warnf (st : RlogState) (format : List Char) (a : List (List Char))
    (caller : Option CallerInfo) : LogResult :=
  basicLogR st levelWarn notATrace format [] a caller

/-- `Error`. -/
def Error (st : RlogState) (a : List (List Char)) (caller : Option CallerInfo) : LogResult :=
  basicLogR st levelErr notATrace [] [] a caller

/-- `Errorf`. -/
def Errorf (st : RlogState) (format : List Char) (a : List (List Char))
    (caller : Option CallerInfo) : LogResult :=
  basicLogR st levelErr notATrace format [] a caller

/-- `Critical`. -/
def Critical (st : RlogState) (a : List (List Char)) (caller : Option CallerInfo) : LogResult :=
  basicLogR st levelCrit notATrace [] [] a caller

/-- `Criticalf`. -/
def Criticalf (st : RlogState) (format : List Char) (a : List (List Char))
    (caller : Option CallerInfo) : LogResult :=
  basicLogR st levelCrit notATrace format [] a caller

/-- The settings produced by `init` when none of the rlog environment
variables is set: the log spec is compiled from `""` with default `levelInfo`,
the trace spec from `""` with default `-1`, and caller info is off. -/
def initState : RlogState :=
  ⟨filterSpec.fromString ⟨[]⟩ [] false levelInfo,
   filterSpec.fromString ⟨[]⟩ [] true (-1), false⟩


/-- A sample caller, standing for a successful `runtime.Caller(2)` lookup. -/
def sampleCaller : CallerInfo := ⟨("app/main.go").data, 10, ("main.main").data⟩

/-- The filter loop agrees with first-match-wins: it returns the decision of
the first filter whose pattern matches, and false when none does. -/
theorem matchLoop_eq_find (fn : List Char) (L : Int) (fs : List filter) :
    matchLoop fn L fs =
      (match fs.find? (fun f => (f.matchf fn L).1) with
       | some f => (f.matchf fn L).2
       | none => false) := by
  induction fs with
  | nil => simp [matchLoop]
  | cons f rest ih =>
    cases h : (f.matchf fn L).1 with
    | true => simp [matchLoop, h, List.find?_cons_of_pos]
    | false => simp [matchLoop, h, ih, List.find?_cons_of_neg]

/-- A one-filter spec carrying only the empty-pattern global filter at
threshold `T` admits exactly the levels `L ≤ T`, for every filename. -/
theorem matchfilters_single_global (T : Int) (fn : List Char) (L : Int) :
    filterSpec.matchfilters ⟨[⟨[], T⟩]⟩ fn L = decide (L ≤ T) := by
  simp [filterSpec.matchfilters, matchLoop, filter.matchf]

/-- Emission test of a non-trace call against a global-only log spec. -/
theorem basicLog_isSome_log_global (T L : Int) (tr : filterSpec) (flag : Bool)
    (fmt pre : List Char) (a : List (List Char)) (caller : Option CallerInfo) :
    (basicLog ⟨⟨[⟨[], T⟩]⟩, tr, flag⟩ L notATrace fmt pre a caller).isSome
      = decide (L ≤ T) := by
  simp only [basicLog, if_pos rfl, matchfilters_single_global]
  cases h : decide (L ≤ T) <;> simp [h]

/-- Emission test of a trace call (real trace level) against a global-only
trace spec. -/
theorem basicLog_isSome_trace_global (T L d : Int) (lg : filterSpec) (flag : Bool)
    (fmt pre : List Char) (a : List (List Char)) (caller : Option CallerInfo)
    (hd : d ≠ notATrace) :
    (basicLog ⟨lg, ⟨[⟨[], T⟩]⟩, flag⟩ L d fmt pre a caller).isSome = decide (d ≤ T) := by
  simp only [basicLog, if_neg hd, matchfilters_single_global]
  cases h : decide (d ≤ T) <;> simp [h]

/-- A trace call checked against an empty trace filter list is suppressed. -/
theorem basicLog_none_trace_empty (st : RlogState) (hs : st.tracefilterSpec.filters = [])
    (L d : Int) (hd : d ≠ notATrace) (fmt pre : List Char) (a : List (List Char))
    (caller : Option CallerInfo) :
    basicLog st L d fmt pre a caller = none := by
  simp [basicLog, if_neg hd, filterSpec.matchfilters, hs]

/-- C1: `matchfilters` examines the filters in stored order and returns the
`shouldLog` decision of the first filter whose pattern matches the filename;
if none matches it returns false. For the log spec compiled from
`"foo.go=DEBUG,WARN"`, file `foo.go` at level INFO is admitted while `bar.go`
at level INFO is rejected, and the same holds for the reordered input
`"WARN,foo.go=DEBUG"`. -/
theorem C1_first_match_wins :
    (∀ (spec : filterSpec) (filename : List Char) (level : Int),
      spec.matchfilters filename level =
        (match spec.filters.find? (fun f => (f.matchf filename level).1) with
         | some f => (f.matchf filename level).2
         | none => false))
    ∧ (filterSpec.fromString ⟨[]⟩ (("foo.go=DEBUG,WARN").data) false levelInfo).matchfilters
        (("foo.go").data) levelInfo = true
    ∧ (filterSpec.fromString ⟨[]⟩ (("foo.go=DEBUG,WARN").data) false levelInfo).matchfilters
        (("bar.go").data) levelInfo = false
    ∧ (filterSpec.fromString ⟨[]⟩ (("WARN,foo.go=DEBUG").data) false levelInfo).matchfilters
        (("foo.go").data) levelInfo = true
    ∧ (filterSpec.fromString ⟨[]⟩ (("WARN,foo.go=DEBUG").data) false levelInfo).matchfilters
        (("bar.go").data) levelInfo = false := by
  refine ⟨?_, by decide, by decide, by decide, by decide⟩
  intro spec filename level
  cases hfs : spec.filters with
  | nil => simp [filterSpec.matchfilters, hfs]
  | cons f rest =>
    rw [filterSpec.matchfilters, hfs]
    simp only [List.length_cons, if_neg (Nat.succ_ne_zero rest.length)]
    exact matchLoop_eq_find filename level (f :: rest)

/-- C2: with a log spec holding only the global threshold `T`, a non-trace
call at level `L` is emitted iff `L ≤ T` under the ordering NONE(0) <
CRITICAL(1) < ERROR(2) < WARN(3) < INFO(4) < DEBUG(5) < TRACE(6); with
threshold WARN, Critical, Error and Warn emit, Info and Debug do not. -/
theorem C2_level_threshold :
    (∀ (T L : Int) (tr : filterSpec) (flag : Bool) (fmt pre : List Char)
       (a : List (List Char)) (caller : Option CallerInfo),
      (basicLog ⟨⟨[⟨[], T⟩]⟩, tr, flag⟩ L notATrace fmt pre a caller).isSome
        = decide (L ≤ T))
    ∧ (Critical ⟨⟨[⟨[], levelWarn⟩]⟩, ⟨[]⟩, false⟩ [("m").data]
        (some sampleCaller)).output.isSome = true
    ∧ (Error ⟨⟨[⟨[], levelWarn⟩]⟩, ⟨[]⟩, false⟩ [("m").data]
        (some sampleCaller)).output.isSome = true
    ∧ (Warn ⟨⟨[⟨[], levelWarn⟩]⟩, ⟨[]⟩, false⟩ [("m").data]
        (some sampleCaller)).output.isSome = true
    ∧ (Info ⟨⟨[⟨[], levelWarn⟩]⟩, ⟨[]⟩, false⟩ [("m").data]
        (some sampleCaller)).output.isSome = false
    ∧ (Debug ⟨⟨[⟨[], levelWarn⟩]⟩, ⟨[]⟩, false⟩ [("m").data]
        (some sampleCaller)).output.isSome = false := by
  exact ⟨fun T L tr flag fmt pre a caller =>
    basicLog_isSome_log_global T L tr flag fmt pre a caller,
    by decide, by decide, by decide, by decide, by decide⟩

/-- C3 counterexample: a trace configuration with no pattern filters and the
disabled global level -1 does NOT compile to an empty filter list; the global
fallback filter {"", -1} is appended unconditionally. -/
theorem C3_counterexample :
    (filterSpec.fromString ⟨[]⟩ [] true (-1)).filters = [⟨[], -1⟩]
    ∧ (filterSpec.fromString ⟨[]⟩ [] true (-1)).filters ≠ [] := by decide

/-- C3 amended: in trace mode the global fallback is always appended, even
when it equals the disabled sentinel -1, so a trace configuration with no
pattern filters and a disabled global level compiles to the one-element list
holding the filter {"", -1}, never to an empty list. -/
theorem C3_global_always_appended :
    (∀ (s : List Char), (filterSpec.fromString ⟨[]⟩ s true (-1)).filters ≠ [])
    ∧ (filterSpec.fromString ⟨[]⟩ [] true (-1)).filters = [⟨[], -1⟩]
    ∧ (filterSpec.fromString ⟨[]⟩ (("-1").data) true (-1)).filters = [⟨[], -1⟩]
    ∧ (filterSpec.fromString ⟨[]⟩ (("3").data) true (-1)).filters = [⟨[], 3⟩] := by
  refine ⟨?_, by decide, by decide, by decide⟩
  intro s
  simp [filterSpec.fromString]

/-- C4 counterexample: with an empty active trace filter list, a Trace call
still performs the caller-stack introspection (runtime.Caller runs
unconditionally at the top of basicLog), although it produces no output. -/
theorem C4_counterexample :
    (Trace ⟨⟨[⟨[], 4⟩]⟩, ⟨[]⟩, false⟩ 1 [("m").data] (some sampleCaller)).callerIntrospected
      = true
    ∧ (Trace ⟨⟨[⟨[], 4⟩]⟩, ⟨[]⟩, false⟩ 1 [("m").data] (some sampleCaller)).output
      = none := by decide

/-- C4 amended: if the active trace filter list is empty, then Trace and
Tracef at any real trace depth (d ≠ -1, the notATrace sentinel) produce no
output, but they still perform the caller-stack introspection: there is no
early-exit pre-check before basicLog captures the caller. -/
theorem C4_no_early_exit :
    ∀ (st : RlogState) (d : Int) (fmt : List Char) (a : List (List Char))
      (caller : Option CallerInfo),
      st.tracefilterSpec.filters = [] → d ≠ notATrace →
        ((Trace st d a caller).output = none
         ∧ (Trace st d a caller).callerIntrospected = true
         ∧ (Tracef st d fmt a caller).output = none
         ∧ (Tracef st d fmt a caller).callerIntrospected = true) := by
  intro st d fmt a caller hs hd
  refine ⟨?_, rfl, ?_, rfl⟩
  · exact basicLog_none_trace_empty st hs levelTrace d hd []
      ('(' :: goItoa d ++ [(')')]) a caller
  · exact basicLog_none_trace_empty st hs levelTrace d hd fmt
      ('(' :: goItoa d ++ [(')')]) a caller

/-- C4 witness. -/
theorem C4_no_early_exit_witness :
    (Trace ⟨⟨[⟨[], 4⟩]⟩, ⟨[]⟩, false⟩ 2 [("m").data] (some sampleCaller)).output = none
    ∧ (Trace ⟨⟨[⟨[], 4⟩]⟩, ⟨[]⟩, false⟩ 2 [("m").data]
        (some sampleCaller)).callerIntrospected = true :=
  ⟨(C4_no_early_exit ⟨⟨[⟨[], 4⟩]⟩, ⟨[]⟩, false⟩ 2 [] [("m").data]
      (some sampleCaller) rfl (by decide)).1,
   (C4_no_early_exit ⟨⟨[⟨[], 4⟩]⟩, ⟨[]⟩, false⟩ 2 [] [("m").data]
      (some sampleCaller) rfl (by decide)).2.1⟩

/-- C6: with a trace spec holding only the global threshold T, a trace call
at non-negative depth d (plain or formatted) is emitted iff d ≤ T; with
threshold 3, depths 1, 2, 3 emit and depth 4 does not. -/
theorem C6_trace_depth_admission :
    (∀ (T d : Int) (lg : filterSpec) (flag : Bool) (fmt : List Char)
       (a : List (List Char)) (caller : Option CallerInfo),
      0 ≤ d →
        ((Trace ⟨lg, ⟨[⟨[], T⟩]⟩, flag⟩ d a caller).output.isSome = decide (d ≤ T)
         ∧ (Tracef ⟨lg, ⟨[⟨[], T⟩]⟩, flag⟩ d fmt a caller).output.isSome
             = decide (d ≤ T)))
    ∧ (Trace ⟨⟨[]⟩, ⟨[⟨[], 3⟩]⟩, false⟩ 1 [("m").data] (some sampleCaller)).output.isSome
        = true
    ∧ (Trace ⟨⟨[]⟩, ⟨[⟨[], 3⟩]⟩, false⟩ 2 [("m").data] (some sampleCaller)).output.isSome
        = true
    ∧ (Trace ⟨⟨[]⟩, ⟨[⟨[], 3⟩]⟩, false⟩ 3 [("m").data] (some sampleCaller)).output.isSome
        = true
    ∧ (Trace ⟨⟨[]⟩, ⟨[⟨[], 3⟩]⟩, false⟩ 4 [("m").data] (some sampleCaller)).output.isSome
        = false := by
  refine ⟨?_, by decide, by decide, by decide, by decide⟩
  intro T d lg flag fmt a caller hd
  have hne : d ≠ notATrace := by
    simp only [notATrace]
    omega
  exact ⟨basicLog_isSome_trace_global T levelTrace d lg flag []
      ('(' :: goItoa d ++ [(')')]) a caller hne,
    basicLog_isSome_trace_global T levelTrace d lg flag fmt
      ('(' :: goItoa d ++ [(')')]) a caller hne⟩

/-- C6 witness. -/
theorem C6_trace_depth_admission_witness :
    (Trace ⟨⟨[]⟩, ⟨[⟨[], 3⟩]⟩, false⟩ 2 [("m").data] (some sampleCaller)).output.isSome
      = decide ((2 : Int) ≤ 3) :=
  (C6_trace_depth_admission.1 3 2 ⟨[]⟩ false [] [("m").data]
    (some sampleCaller) (by decide)).1

/-- C9 counterexample: under the default settings (no environment variables:
log level INFO, trace disabled at -1), Trace(-1, msg) produces NO output
line: depth -1 collides with the notATrace sentinel, so the call is filtered
as an ordinary log message at level TRACE against the log spec, which the
INFO threshold rejects. -/
theorem C9_counterexample :
    (Trace initState (-1) [("m").data] (some sampleCaller)).output = none := by decide

/-- C9 amended: a trace call at depth d ≠ -1 is admitted against a global-only
trace spec iff d ≤ threshold (there is no non-negativity guard), so under the
default disabled threshold -1 every depth d ≤ -2 still produces an output
line; depth -1 itself is the notATrace sentinel, is routed through the log
filter at level TRACE, and is suppressed under the default log spec. -/
theorem C9_negative_depths :
    (∀ (T d : Int) (lg : filterSpec) (flag : Bool) (a : List (List Char))
       (caller : Option CallerInfo),
      d ≠ notATrace →
        (Trace ⟨lg, ⟨[⟨[], T⟩]⟩, flag⟩ d a caller).output.isSome = decide (d ≤ T))
    ∧ (Trace initState (-2) [("m").data] (some sampleCaller)).output.isSome = true
    ∧ (Trace initState (-5) [("m").data] (some sampleCaller)).output.isSome = true
    ∧ (Trace initState (-1) [("m").data] (some sampleCaller)).output.isSome = false := by
  refine ⟨?_, by decide, by decide, by decide⟩
  intro T d lg flag a caller hd
  exact basicLog_isSome_trace_global T levelTrace d lg flag []
    ('(' :: goItoa d ++ [(')')]) a caller hd

/-- C9 witness. -/
theorem C9_negative_depths_witness :
    (Trace ⟨⟨[]⟩, ⟨[⟨[], -1⟩]⟩, false⟩ (-2) [("m").data] (some sampleCaller)).output.isSome
      = decide ((-2 : Int) ≤ -1) :=
  C9_negative_depths.1 (-1) (-2) ⟨[]⟩ false [("m").data] (some sampleCaller) (by decide)

/-- The malformed-field predicate of claim C5, read off the same token
analysis `fromString` performs: more than two `=` tokens, or a level token
that fails to parse (numerically in trace mode, as a level name otherwise). -/
def fieldMalformed (isTraceLevels : Bool) (f : List Char) : Bool :=
  match goSplit '=' f with
  | [lt] =>
    if isTraceLevels then (goAtoi lt).isNone else (levelNumbers (goToUpper lt)).isNone
  | [_, lt] =>
    if isTraceLevels then (goAtoi lt).isNone else (levelNumbers (goToUpper lt)).isNone
  | _ => true

/-- The level token of a configuration field: the whole field for a bare
global field, the part after `=` for a pattern field, none for a field with
more than two tokens. -/
def levelTokenOf (f : List Char) : Option (List Char) :=
  match goSplit '=' f with
  | [lt] => some lt
  | [_, lt] => some lt
  | _ => none

/-- C5: `fromString` is total and silently drops malformed fields: a field
with the wrong number of `=` tokens or an unparsable level leaves the parser
state unchanged, and `"foo.go=,BADLEVEL,DEBUG"` compiles in log-level mode to
the same FilterSpec as `"DEBUG"` alone. -/
theorem C5_malformed_fields_dropped :
    (∀ (mode : Bool) (st : Int × List filter) (f : List Char),
      fieldMalformed mode f = true → processField mode st f = st)
    ∧ filterSpec.fromString ⟨[]⟩ (("foo.go=,BADLEVEL,DEBUG").data) false levelInfo
        = filterSpec.fromString ⟨[]⟩ (("DEBUG").data) false levelInfo := by
  refine ⟨?_, by decide⟩
  intro mode st f h
  simp only [fieldMalformed] at h
  simp only [processField, parseField]
  cases hg : goSplit '=' f with
  | nil => simp
  | cons lt tl =>
    cases tl with
    | nil =>
      rw [hg] at h
      simp only
      cases mode with
      | true =>
        simp only [if_pos trivial, Option.isNone_iff_eq_none] at h
        simp [h]
      | false =>
        simp only [Bool.false_eq_true, if_false, Option.isNone_iff_eq_none] at h
        simp [h]
    | cons lt2 tl2 =>
      cases tl2 with
      | nil =>
        rw [hg] at h
        simp only
        cases mode with
        | true =>
          simp only [if_pos trivial, Option.isNone_iff_eq_none] at h
          simp [h]
        | false =>
          simp only [Bool.false_eq_true, if_false, Option.isNone_iff_eq_none] at h
          simp [h]
      | cons lt3 tl3 => simp

/-- C5 witness. -/
theorem C5_malformed_fields_dropped_witness :
    processField true (0, []) (("a=b=c").data) = (0, []) :=
  C5_malformed_fields_dropped.1 true (0, []) (("a=b=c").data) (by decide)

/-- C7: in log-level mode a field whose level token names TRACE (in any
letter case), whether as a pattern level or as the bare global level, is
ignored: it adds no filter and leaves the global fallback unchanged, so the
fallback stays at the INFO default unless another valid field sets it. -/
theorem C7_trace_level_name_ignored :
    (∀ (st : Int × List filter) (f lt : List Char),
      levelTokenOf f = some lt → goToUpper lt = ("TRACE").data →
        processField false st f = st)
    ∧ filterSpec.fromString ⟨[]⟩ (("TRACE").data) false levelInfo = ⟨[⟨[], levelInfo⟩]⟩
    ∧ filterSpec.fromString ⟨[]⟩ (("trace").data) false levelInfo = ⟨[⟨[], levelInfo⟩]⟩
    ∧ filterSpec.fromString ⟨[]⟩ (("foo.go=TRACE").data) false levelInfo
        = ⟨[⟨[], levelInfo⟩]⟩
    ∧ filterSpec.fromString ⟨[]⟩ (("TRACE,WARN").data) false levelInfo
        = ⟨[⟨[], levelWarn⟩]⟩ := by
  refine ⟨?_, by decide, by decide, by decide, by decide⟩
  intro st f lt hlt hup
  simp only [levelTokenOf] at hlt
  simp only [processField, parseField]
  cases hg : goSplit '=' f with
  | nil => simp
  | cons t1 tl =>
    cases tl with
    | nil =>
      rw [hg] at hlt
      simp only [Option.some.injEq] at hlt
      subst hlt
      simp [hup, levelNumbers]
    | cons t2 tl2 =>
      cases tl2 with
      | nil =>
        rw [hg] at hlt
        simp only [Option.some.injEq] at hlt
        subst hlt
        simp [hup, levelNumbers]
      | cons t3 tl3 => simp


/-- C7 witness. -/
theorem C7_trace_level_name_ignored_witness :
    processField false (4, []) (("TRACE").data) = (4, []) :=
  C7_trace_level_name_ignored.1 (4, []) (("TRACE").data) (("TRACE").data)
    (by decide) (by decide)

/-- The line shape asserted by claim C8, following the words of the spec: the
level name alone padded to 9 characters, then the suffix, then ": ", then the
optional caller segment, then the message body. -/
def claimedLineShape (levelName suffix callerInfo msg : List Char) : List Char :=
  padRight 9 levelName ++ suffix ++ ':' :: ' ' :: (callerInfo ++ msg)

/-- C8 counterexample: a trace message at depth 2 is emitted with the level
name and suffix padded together to 9 columns, which differs from the claimed
shape (name padded to 9, then the suffix). -/
theorem C8_counterexample :
    (Trace ⟨⟨[]⟩, ⟨[⟨[], 3⟩]⟩, false⟩ 2 [("hi").data] (some sampleCaller)).output
      = some (("TRACE(2) : hi\n").data)
    ∧ (("TRACE(2) : hi\n").data)
        ≠ claimedLineShape (("TRACE").data) (("(2)").data) [] (("hi\n").data) := by
  decide

/-- C8 amended: every emitted line is (after the optional timestamp the
log.Logger flags prepend): the level name TOGETHER WITH the suffix padded as
one unit to a minimum width of 9, then ": ", then the caller segment
"[parentdir/filename:line (function)] " exactly when the caller-info flag is
set, then the message body (printf-formatted when a format string was given,
else the arguments joined println-style); for Trace the suffix is the depth
in parentheses. -/
theorem C8_line_shape :
    (∀ (st : RlogState) (L tl : Int) (fmt pre : List Char) (a : List (List Char))
       (caller : Option CallerInfo) (line : List Char),
      basicLog st L tl fmt pre a caller = some line →
        line = padRight 9 (levelStrings L ++ pre) ++ ':' :: ' ' ::
          (callerInfoSegment st caller
            ++ (if fmt ≠ [] then goSprintf fmt a else goSprintln a)))
    ∧ (∀ (st : RlogState) (d : Int) (a : List (List Char)) (caller : Option CallerInfo)
         (line : List Char),
      (Trace st d a caller).output = some line →
        line = padRight 9 (("TRACE").data ++ '(' :: goItoa d ++ [(')')]) ++ ':' :: ' ' ::
          (callerInfoSegment st caller ++ goSprintln a)) := by
  have key : ∀ (st : RlogState) (L tl : Int) (fmt pre : List Char) (a : List (List Char))
      (caller : Option CallerInfo) (line : List Char),
      basicLog st L tl fmt pre a caller = some line →
        line = padRight 9 (levelStrings L ++ pre) ++ ':' :: ' ' ::
          (callerInfoSegment st caller
            ++ (if fmt ≠ [] then goSprintf fmt a else goSprintln a)) := by
    intro st L tl fmt pre a caller line h
    simp only [basicLog] at h
    split at h <;> split at h <;>
      first
        | exact (Option.some.inj h).symm
        | simp at h
  refine ⟨key, ?_⟩
  intro st d a caller line h
  have h2 := key st levelTrace d [] ('(' :: goItoa d ++ [(')')]) a caller line h
  simpa [levelStrings] using h2

/-- C8 witness (for the amended theorem). -/
theorem C8_line_shape_witness :
    ("INFO     : m\n").data = padRight 9 (levelStrings levelInfo ++ []) ++ ':' :: ' ' ::
      (callerInfoSegment ⟨⟨[⟨[], 4⟩]⟩, ⟨[]⟩, false⟩ none
        ++ (if ([] : List Char) ≠ [] then goSprintf [] [("m").data]
            else goSprintln [("m").data])) :=
  C8_line_shape.1 ⟨⟨[⟨[], 4⟩]⟩, ⟨[]⟩, false⟩ levelInfo notATrace [] [] [("m").data] none
    (("INFO     : m\n").data) (by decide)

/-- The pattern filters a list of fields contributes, in field order: one
filter per field that parses with a non-empty match token. -/
def patternFiltersOf (isTraceLevels : Bool) (fields : List (List Char)) : List filter :=
  fields.filterMap (fun f =>
    match parseField isTraceLevels f with
    | none => none
    | some (mt, lvl) => if mt = [] then none else some ⟨mt, lvl⟩)

/-- The filter accumulator of the field loop collects exactly the pattern
filters of the fields, in order, after whatever was already accumulated. -/
theorem foldl_processField_snd (mode : Bool) (fields : List (List Char)) :
    ∀ (g : Int) (acc : List filter),
      (fields.foldl (processField mode) (g, acc)).2
        = acc ++ patternFiltersOf mode fields := by
  induction fields with
  | nil => intro g acc; simp [patternFiltersOf]
  | cons f fs ih =>
    intro g acc
    simp only [List.foldl_cons, patternFiltersOf, List.filterMap_cons]
    cases hp : parseField mode f with
    | none => simp [processField, hp, ih g acc, patternFiltersOf]
    | some p =>
      rcases p with ⟨mt, lvl⟩
      by_cases hmt : mt = []
      · simp [processField, hp, hmt, ih lvl acc, patternFiltersOf]
      · simp [processField, hp, hmt, ih g (acc ++ [⟨mt, lvl⟩]), patternFiltersOf]

/-- Every filter contributed by a field has a non-empty pattern (an empty
match token is routed to the global level instead). -/
theorem pattern_ne_nil_of_mem (mode : Bool) (fields : List (List Char)) (f' : filter)
    (h : f' ∈ patternFiltersOf mode fields) : f'.Pattern ≠ [] := by
  simp only [patternFiltersOf, List.mem_filterMap] at h
  rcases h with ⟨a, _, ha⟩
  cases hp : parseField mode a with
  | none => rw [hp] at ha; simp at ha
  | some p =>
    rcases p with ⟨mt, lvl⟩
    rw [hp] at ha
    by_cases hmt : mt = []
    · simp [hmt] at ha
    · simp only [if_neg hmt, Option.some.injEq] at ha
      subst ha
      exact hmt

/-- C10: after a single `fromString` call on a fresh filterSpec, for every
input string and both modes, the filter list is non-empty, exactly one filter
has the empty pattern, that filter is last, and the pattern filters before it
appear in the order their fields appeared in the input string. -/
theorem C10_compiled_spec_shape :
    ∀ (s : List Char) (mode : Bool) (dflt : Int),
      ((filterSpec.fromString ⟨[]⟩ s mode dflt).filters ≠ [])
      ∧ ((filterSpec.fromString ⟨[]⟩ s mode dflt).filters.countP
          (fun f => f.Pattern = [])) = 1
      ∧ (∃ g : Int,
          (filterSpec.fromString ⟨[]⟩ s mode dflt).filters.getLast? = some ⟨[], g⟩)
      ∧ (filterSpec.fromString ⟨[]⟩ s mode dflt).filters.dropLast
          = patternFiltersOf mode (goSplit ',' s) := by
  intro s mode dflt
  have hsnd : ((goSplit ',' s).foldl (processField mode) (dflt, ([] : List filter))).2
      = patternFiltersOf mode (goSplit ',' s) := by
    simpa using foldl_processField_snd mode (goSplit ',' s) dflt []
  have hform : (filterSpec.fromString ⟨[]⟩ s mode dflt).filters
      = patternFiltersOf mode (goSplit ',' s)
        ++ [⟨[], ((goSplit ',' s).foldl (processField mode) (dflt, [])).1⟩] := by
    simp only [filterSpec.fromString]
    rw [hsnd]
  refine ⟨?_, ?_, ?_, ?_⟩
  · simp [hform]
  · rw [hform, List.countP_append]
    have h0 : (patternFiltersOf mode (goSplit ',' s)).countP
        (fun f => f.Pattern = []) = 0 := by
      rw [List.countP_eq_zero]
      intro a ha
      simpa using pattern_ne_nil_of_mem mode (goSplit ',' s) a ha
    simp [h0]
  · rw [hform, List.getLast?_concat]
    exact ⟨_, rfl⟩
  · rw [hform, List.dropLast_concat]

end Rlog
